import Mathlib

/-!
Shallow embedding of the monitor-control core of the Brightify repository
(capability parser, DDC/CI frame builder, retry/consensus logic of the
monitor handles, discovery deduplication, sensor-to-brightness estimator),
with theorems settling the specification claims about it.

Python integers are modelled as Int/Nat, Python floats as exact rationals,
fallible Python code as Except/Option values, and the hardware channel as
an explicit oracle of per-attempt outcomes.
-/

namespace Brightify

/-- Error kinds of the vpc module: `VCPError` has the two concrete
subclasses raised by channel acquisition (`VCPIOError`,
`VCPPermissionError`). -/
inductive VCPErr where
  | io
  | permission
deriving DecidableEq

/-- Python exceptions that the parsing and monitor code can raise:
`ValueError` (from `int(chunk, 16)`), `KeyError` (missing nested dict key),
`IndexError` (`pop` from an empty list), `AttributeError` (missing method),
and the `VCPError` family. -/
inductive PyErr where
  | valueError
  | keyError
  | indexError
  | attributeError
  | vcp (e : VCPErr)
deriving DecidableEq

/-- Boolean success test for an `Except` value. -/
def exceptOk {ε α : Type} : Except ε α → Bool
  | .ok _ => true
  | .error _ => false

namespace Vpc

/-- Python whitespace as used by `str.split()` with no argument. -/
def pyIsSpace (c : Char) : Bool :=
  c == ' ' || c == '\t' || c == '\n' || c == '\r' || c == '\x0b' || c == '\x0c'

/-- Accumulating splitter for `str.split()`: splits on runs of whitespace
and drops empty chunks. The accumulator holds the current chunk reversed. -/
def splitChunksAux : List Char → List Char → List String
  | [], acc => if acc.isEmpty then [] else [String.mk acc.reverse]
  | c :: rest, acc =>
    if pyIsSpace c then
      if acc.isEmpty then splitChunksAux rest []
      else String.mk acc.reverse :: splitChunksAux rest []
    else splitChunksAux rest (c :: acc)

/-- Python `s.split()` (no separator argument). -/
def pySplitWs (s : List Char) : List String := splitChunksAux s []

/-- The per-character expansion done by
`caps_str.replace("(", " ( ").replace(")", " ) ")`. -/
def expandParens (c : Char) : List Char :=
  if c == '(' then [' ', '(', ' ']
  else if c == ')' then [' ', ')', ' ']
  else [c]

/-- Numeric value of one hexadecimal digit. -/
def hexVal? (c : Char) : Option Nat :=
  if '0' ≤ c ∧ c ≤ '9' then some (c.toNat - 48)
  else if 'a' ≤ c ∧ c ≤ 'f' then some (c.toNat - 87)
  else if 'A' ≤ c ∧ c ≤ 'F' then some (c.toNat - 55)
  else none

/-- Digit tail of a Python base-16 numeral: hex digits with single
underscores allowed between digits (PEP 515), never doubled or trailing. -/
def hexDigitsCore : Nat → List Char → Option Nat
  | acc, [] => some acc
  | acc, '_' :: c :: rest =>
    match hexVal? c with
    | some v => hexDigitsCore (16 * acc + v) rest
    | none => none
  | acc, c :: rest =>
    match hexVal? c with
    | some v => hexDigitsCore (16 * acc + v) rest
    | none => none

/-- Nonempty run of hex digits (with inner underscores), first char must be
a digit. -/
def hexDigits : List Char → Option Nat
  | [] => none
  | c :: rest =>
    match hexVal? c with
    | some v => hexDigitsCore v rest
    | none => none

/-- Digits after a `0x`/`0X` prefix: one underscore directly after the
prefix is allowed. -/
def hexAfterFlag : List Char → Option Nat
  | '_' :: rest => hexDigits rest
  | l => hexDigits l

/-- Python `int(s, 16)`: optional sign, optional `0x`/`0X` prefix, hex
digits with single underscores between digits; `none` models the
`ValueError` raised on any other input. -/
def pyIntHex (s : String) : Option Int :=
  let l := s.toList
  let signed : Bool × List Char :=
    match l with
    | '+' :: r => (false, r)
    | '-' :: r => (true, r)
    | _ => (false, l)
  let core : Option Nat :=
    match signed.2 with
    | '0' :: 'x' :: rest => hexAfterFlag rest
    | '0' :: 'X' :: rest => hexAfterFlag rest
    | l2 => hexDigits l2
  match core with
  | none => none
  | some n => some (if signed.1 then -(n : Int) else (n : Int))

/-- The nested dictionaries built by `_cap_to_dict`: finitely branching,
insertion-ordered, with integer keys. -/
inductive PyDict where
  | mk (entries : List (Int × PyDict))

/-- Entry list of a `PyDict`. -/
def pdEntries : PyDict → List (Int × PyDict)
  | .mk es => es

/-- Key list of a `PyDict`, in insertion order. -/
def pyKeys (d : PyDict) : List Int := (pdEntries d).map (fun e => e.1)

/-- Python `d[k]` as a total lookup. -/
def pyLookup (d : PyDict) (k : Int) : Option PyDict := (pdEntries d).lookup k

/-- Python `d[k] = {}`-style update of an entry list: replaces the value in
place if the key exists, else appends (dict insertion order). -/
def pdSet : List (Int × PyDict) → Int → PyDict → List (Int × PyDict)
  | [], k, v => [(k, v)]
  | (k0, v0) :: rest, k, v =>
    if k0 == k then (k0, v) :: rest else (k0, v0) :: pdSet rest k v

/-- `d = result_dict; for g in group: d = d[g]; d[val] = \x7b\x7d` — walks
the group path (a `None` entry or a missing key is a `KeyError`, returned
as `none`) and sets `val` to an empty dict at the end. -/
def pySetPath : PyDict → List (Option Int) → Int → Option PyDict
  | .mk es, [], k => some (.mk (pdSet es k (.mk [])))
  | .mk es, some g :: rest, k =>
    match es.lookup g with
    | none => none
    | some sub =>
      match pySetPath sub rest k with
      | none => none
      | some sub' => some (.mk (pdSet es g sub'))
  | _, none :: _, _ => none

/-- The chunk loop of `_cap_to_dict`: state is the dict built so far, the
open-paren group stack (entries are the `prev_val` at the time of the
paren, possibly `None`), and `prev_val`. -/
def capToDictGo : List String → PyDict → List (Option Int) → Option Int →
    Except PyErr PyDict
  | [], d, _, _ => .ok d
  | ch :: rest, d, group, prev =>
    if ch == "(" then capToDictGo rest d (group ++ [prev]) prev
    else if ch == ")" then
      match group with
      | [] => .error .indexError
      | _ :: _ => capToDictGo rest d group.dropLast prev
    else
      match pyIntHex ch with
      | none => .error .valueError
      | some v =>
        match pySetPath d group v with
        | none => .error .keyError
        | some d' => capToDictGo rest d' group (some v)

/-- `_cap_to_dict`: parses a `cmds`/`vcp` capability group string into a
nested dict; the `Except` errors model the exceptions the Python code can
raise on malformed content. -/
def _cap_to_dict (s : String) : Except PyErr PyDict :=
  if s == "" then .ok (.mk [])
  else capToDictGo (pySplitWs (s.toList.flatMap expandParens)) (.mk []) [] none

/-- Case-insensitive match of one pattern char (the keys are lower-case
ASCII words) against a subject char, as `re.IGNORECASE` does for ASCII. -/
def eqCI (p c : Char) : Bool :=
  c == p || (decide ('a' ≤ p) && decide (p ≤ 'z') && (c.toNat + 32 == p.toNat))

/-- If `s` starts with `key` (case-insensitively) followed by `'('`,
returns the remainder after the paren. -/
def matchKeyAt : List Char → List Char → Option (List Char)
  | [], s =>
    match s with
    | '(' :: r => some r
    | _ => none
  | _ :: _, [] => none
  | k :: ks, c :: cs => if eqCI k c then matchKeyAt ks cs else none

/-- The non-greedy capture `(.*?)\)`: the chars strictly before the first
`')'`, failing if a newline (which `.` cannot match) or the end of the
string comes first. -/
def captureTo : List Char → Option (List Char)
  | [] => none
  | ')' :: _ => some []
  | '\n' :: _ => none
  | c :: r =>
    match captureTo r with
    | some cap => some (c :: cap)
    | none => none

/-- Leftmost-match scan of `re.search` for the pattern `key\((.*?)\)`. -/
def extractCapAux (key : List Char) : List Char → List Char
  | [] => []
  | c :: rest =>
    match matchKeyAt key (c :: rest) with
    | some after =>
      match captureTo after with
      | some cap => cap
      | none => extractCapAux key rest
    | none => extractCapAux key rest

/-- `_extract_cap`: first capture of the case-insensitive regex
`key\((.*?)\)` in the capabilities string, or `""` when there is no match
(missing keys and truncated groups never raise). -/
def _extract_cap (caps_str : String) (key : String) : String :=
  String.mk (extractCapAux key.toList caps_str.toList)

/-- Structured result of `parse_capabilities`. The dataclass fields are
kept; `inputs`/`color_presets` hold either the raw extracted string (when
the corresponding VCP code is absent, as in the Python code) or the sorted
numeric sub-values of codes 0x60/0x14 (the cosmetic renaming of recognized
values to enum objects is dropped, the numeric values are kept). -/
structure Capabilities where
  prot : String
  type : String
  model : String
  cmds : PyDict
  vcp : PyDict
  mswhql : String
  asset_eep : String
  mccs_ver : String
  window : String
  vcpname : String
  inputs : Sum String (List Int)
  color_presets : Sum String (List Int)

/-- Keys of a dict sorted ascending (`list(...); .sort()`). -/
def sortedKeys (d : PyDict) : List Int :=
  (pyKeys d).insertionSort (fun a b => a ≤ b)

/-- `parse_capabilities`: extracts every dataclass key with
`_extract_cap`, parses the `cmds` and `vcp` groups with `_cap_to_dict`
(whose exceptions propagate, in that order), and derives the input-source
and color-preset lists from VCP codes 0x60 and 0x14. -/
def parse_capabilities (s : String) : Except PyErr Capabilities := do
  let cmds ← _cap_to_dict (_extract_cap s "cmds")
  let vcp ← _cap_to_dict (_extract_cap s "vcp")
  let inputs : Sum String (List Int) :=
    match pyLookup vcp 0x60 with
    | some d => .inr (sortedKeys d)
    | none => .inl (_extract_cap s "inputs")
  let color_presets : Sum String (List Int) :=
    match pyLookup vcp 0x14 with
    | some d => .inr (sortedKeys d)
    | none => .inl (_extract_cap s "color_presets")
  pure {
    prot := _extract_cap s "prot"
    type := _extract_cap s "type"
    model := _extract_cap s "model"
    cmds := cmds
    vcp := vcp
    mswhql := _extract_cap s "mswhql"
    asset_eep := _extract_cap s "asset_eep"
    mccs_ver := _extract_cap s "mccs_ver"
    window := _extract_cap s "window"
    vcpname := _extract_cap s "vcpname"
    inputs := inputs
    color_presets := color_presets }

end Vpc

namespace LinuxVCP

/-- Host address byte of a DDC/CI request (virtual I2C slave address of
the host). -/
def HOST_ADDRESS : Nat := 0x51

/-- DDC/CI command address on the I2C bus. -/
def DDCCI_ADDR : Nat := 0x37

/-- Protocol flag: bit 7 of the length byte. -/
def PROTOCOL_FLAG : Nat := 0x80

/-- `get_checksum`: running XOR over the given bytes, starting at 0. -/
def get_checksum (data : List Nat) : Nat :=
  data.foldl (fun acc b => acc ^^^ b) 0

/-- One 16-bit argument as the two bytes `_prepare_data` appends: the high
byte first, then the low byte (`struct.pack("H", arg)` produces the pair
little-endian and the code appends it swapped). Valid for `arg < 2^16`. -/
def packHbe (arg : Nat) : List Nat := [arg / 256, arg % 256]

/-- `_prepare_data`: builds the DDC/CI request frame. The command byte and
the big-endian argument bytes are collected, the length byte
(`len | PROTOCOL_FLAG`) and the host address are prepended, and the XOR
checksum over the shifted destination address and the whole frame so far
is appended. -/
def _prepare_data (cmd : Nat) (args : List Nat) : List Nat :=
  let data := cmd :: args.flatMap packHbe
  let data := (data.length ||| PROTOCOL_FLAG) :: data
  let data := HOST_ADDRESS :: data
  data ++ [get_checksum ((DDCCI_ADDR <<< 1) :: data)]

end LinuxVCP

namespace MonitorBase

/-- Integer clamp into `[minB, maxB]`, the core of `clamp_brightness`
(`max(min(b, self.max_brightness), self.min_brightness)`). -/
def clampI (minB maxB x : Int) : Int := max (min x maxB) minB

/-- `clamp_brightness`: `None` passes through, otherwise the value is
clamped (the try/except around it cannot fire on integer inputs). -/
def clamp_brightness (minB maxB : Int) (b : Option Int) : Option Int :=
  b.map (clampI minB maxB)

/-- Truncation toward zero of a rational, which is what Python `int(...)`
does to a real number. -/
def pyTruncQ (q : ℚ) : ℤ := if 0 ≤ q then ⌊q⌋ else ⌈q⌉

/-- `mean(data) = sum(data) / len(data)` over integers, as an exact
rational. -/
def meanQ (l : List ℤ) : ℚ := ((l.map (Int.cast : ℤ → ℚ)).sum) / (l.length : ℚ)

/-- `int(mean(data))` over integers: the exact mean truncated toward
zero, which is `Int.tdiv` of the sum by the length (Python computes the
mean in floating point, but for candidate values bounded by the
brightness range the float truncates to the same integer as the exact
ratio; `pyIntMean_eq_trunc_meanQ` below proves the agreement with the
exact-rational reading). -/
def pyIntMean (l : List ℤ) : ℤ := (l.sum).tdiv (l.length : ℤ)

/-- `convert_sensor_readings`: every reading is converted with
`clamp_brightness(int(m * 2))` (readings are integers — the only producer
in the repository, `SensorComm.get_measurement`, returns `int` — so
`int(m * 2) = m * 2`), an empty candidate list or a missing cached
brightness yields `None`, and the truncated candidate mean is proposed
only when it differs from the cached brightness by at least the
threshold `diff_th = 5`. -/
def convert_sensor_readings (minB maxB : Int) (last_get : Option Int)
    (readings : List ℤ) : Option Int :=
  let brightnesses := readings.map (fun m => clampI minB maxB (m * 2))
  if brightnesses.isEmpty then none
  else
    let potential := pyIntMean brightnesses
    match last_get with
    | none => none
    | some current => if 5 ≤ |current - potential| then some potential else none

/-- Modelled from the spec (for the refinement comparison of claim C3, not
from the source): each sample becomes `clamp(round(sample * k))`, the
proposal is the exact rational mean of the candidates, `None` is returned
when `|mean - last| < threshold`, else the clamped mean (rounded to an
integer, as the call returns an int). -/
def specPropose (k threshold : ℚ) (minB maxB last : Int) (samples : List ℤ) :
    Option Int :=
  if samples.isEmpty then none
  else
    let cands := samples.map (fun m => clampI minB maxB (round ((m : ℚ) * k)))
    let mean := meanQ cands
    if |mean - (last : ℚ)| < threshold then none
    else some (clampI minB maxB (round mean))

end MonitorBase

namespace MonitorDDCCI

/-- `default_name` of a DDC/CI monitor. -/
def default_name : String := "Monitor"

/-- `is_unknown`: the resolved name still equals the default name. -/
def is_unknown (name : String) : Bool := name == default_name

/-- `max(set(values), key=values.count)`: an element of the list whose
multiplicity is maximal (ties broken by first occurrence; under a strict
majority the choice is unique, so the unspecified iteration order of a
Python set is immaterial). -/
def majority (l : List Int) : Option Int :=
  l.dedup.argmax (fun v => l.count v)

/-- The retry loop of `get_brightness`. Each iteration opens the channel
(`with self.vcp:` — an oracle error is an exception raised by
`__enter__`, which nothing catches) and calls `_get_vcp_feature`, which
swallows every exception and yields an optional reading. Successful
readings are collected; without `force` the first one returns at once.
After the loop, `force` resolves to the majority of the collected values
when there are any. Returns (result, new cached last_get value). -/
def getLoop (force : Bool) (oracle : Nat → Except VCPErr (Option Int)) :
    Nat → Nat → List Int → Option Int → Except VCPErr (Option Int × Option Int)
  | 0, _, vals, last =>
    if force then
      match majority vals with
      | some m => .ok (some m, some m)
      | none => .ok (none, last)
    else .ok (none, last)
  | k + 1, i, vals, last =>
    match oracle i with
    | .error e => .error e
    | .ok none => getLoop force oracle k (i + 1) vals last
    | .ok (some b) =>
      if force then getLoop force oracle k (i + 1) (vals ++ [b]) last
      else .ok (some b, some b)

/-- `get_brightness(blocking, force)`: one attempt unless `blocking` or
`force`, else `max_tries` attempts of `getLoop`. -/
def get_brightness (max_tries : Nat) (blocking force : Bool)
    (oracle : Nat → Except VCPErr (Option Int)) (last_get : Option Int) :
    Except VCPErr (Option Int × Option Int) :=
  getLoop force oracle (if !blocking && !force then 1 else max_tries) 0 [] last_get

/-- The retry loop of `set_brightness` inside the channel scope: each
attempt is `_set_vcp_feature` (which swallows every exception and reports
success as a Bool); the first success stores the raw requested brightness
in the cache and returns. Exhaustion is a silent no-op. -/
def setLoop (attempt : Nat → Bool) (b : Int) :
    Nat → Nat → Option Int → Option Int
  | 0, _, last => last
  | k + 1, i, last => if attempt i then some b else setLoop attempt b k (i + 1) last

/-- `set_brightness(brightness, blocking, force)`: the channel is opened
once around the whole loop (`with self.vcp:`); a failing `__enter__`
raises out of the call. Returns the new cached last_set value. -/
def set_brightness (max_tries : Nat) (blocking force : Bool)
    (enter : Except VCPErr Unit) (attempt : Nat → Bool)
    (last_set : Option Int) (brightness : Int) : Except VCPErr (Option Int) :=
  let n := if !blocking && !force then 1 else max_tries
  match enter with
  | .error e => .error e
  | .ok _ => .ok (setLoop attempt brightness n 0 last_set)

/-- The fetch loop of `update_cap`: each round calls
`self.vcp.get_vcp_capabilities()` (outcome given by the oracle: a
capabilities string, a swallowed `VCPError`, or another exception that
propagates) and, on success, parses it. Parse exceptions propagate (only
`VCPError` is caught). The parsed model — always a string, possibly
empty, so the `is not None` guard never fails — is committed as the name
each time; the capabilities field is set only when still unset. State is
(name, cached capabilities). -/
def updateCapLoop (fetches : Nat → Except PyErr String) :
    Nat → Nat → String × Option Vpc.Capabilities →
    Except PyErr (String × Option Vpc.Capabilities)
  | 0, _, st => .ok st
  | k + 1, i, (nm, caps) =>
    match fetches i with
    | .error (.vcp _) => updateCapLoop fetches k (i + 1) (nm, caps)
    | .error e => .error e
    | .ok s =>
      match Vpc.parse_capabilities s with
      | .error e => .error e
      | .ok c =>
        let caps' := match caps with
          | none => some c
          | some c0 => some c0
        updateCapLoop fetches k (i + 1) (c.model, caps')

/-- `update_cap(force)`: one fetch attempt unless forced, else
`max_tries`; the channel is opened once around the loop and a failing
`__enter__` raises. -/
def update_cap (max_tries : Nat) (force : Bool) (enter : Except VCPErr Unit)
    (fetches : Nat → Except PyErr String)
    (name : String) (caps : Option Vpc.Capabilities) :
    Except PyErr (String × Option Vpc.Capabilities) :=
  let num_tries := if force then max_tries else 1
  match enter with
  | .error e => .error (.vcp e)
  | .ok _ => updateCapLoop fetches num_tries 0 (name, caps)

end MonitorDDCCI

namespace M27Q

/-- Observable USB operations of the M27Q driver: an OSD control-transfer
write with its message bytes, or the fixed-size OSD control-transfer
read issued by `get_osd`. -/
inductive UsbOp where
  | write (msg : List Nat)
  | read
deriving DecidableEq

/-- The outbound message `set_osd` sends:
`[0x6E, 0x51, 0x81 + len(data), 0x03] + data`. -/
def set_osd_msg (data : List Nat) : List Nat :=
  [0x6E, 0x51, 0x81 + data.length, 0x03] ++ data

/-- `clamp_brightness` for an M27Q instance (bounds are always 0 and 100,
set by the `MonitorUSB.__init__` chain). -/
def clamp (b : Int) : Int := max (min b 100) 0

/-- The retry loop of `set_brightness`. Each executed attempt issues the
`set_osd` write for the clamped brightness (recorded in the trace whether
or not the attempt reports success) and `_set` swallows every exception
into a Bool. In the blocking path `wait()` runs first — modelled from the
spec: `wait` is called but not defined anywhere in `src_py` (the older
copy `src/brightify/monitors/m27q.py` defines it as a busy-wait until
`is_ready()`); per spec §4.4 it only enforces the inter-command spacing,
performs no I/O and always returns, so it is a no-op on the logical
state. The non-blocking path polls `is_ready` and skips the attempt when
not ready. The first successful attempt stores the clamped value and
returns. -/
def setLoop (ready attempt : Nat → Bool) (blocking' : Bool) (b : Int) :
    Nat → Nat → List UsbOp → Option Int → List UsbOp × Option Int
  | 0, _, tr, last => (tr, last)
  | k + 1, i, tr, last =>
    if blocking' then
      let tr' := tr ++ [.write (set_osd_msg [0x10, 0x00, b.toNat])]
      if attempt i then (tr', some b)
      else setLoop ready attempt blocking' b k (i + 1) tr' last
    else
      if ready i then
        let tr' := tr ++ [.write (set_osd_msg [0x10, 0x00, b.toNat])]
        if attempt i then (tr', some b)
        else setLoop ready attempt blocking' b k (i + 1) tr' last
      else setLoop ready attempt blocking' b k (i + 1) tr last

/-- `set_brightness(brightness, blocking, force)`: one attempt unless
`blocking` or `force`, else `max_tries`; `force` implies blocking; the
brightness is clamped before the loop (the `_set` closure reads the
rebound variable). Returns the trace of USB operations and the new cached
last_set value. -/
def set_brightness (max_tries : Nat) (blocking force : Bool)
    (ready attempt : Nat → Bool) (last_set : Option Int) (brightness : Int) :
    List UsbOp × Option Int :=
  let n := if !blocking && !force then 1 else max_tries
  let blocking' := blocking || force
  let b := clamp brightness
  setLoop ready attempt blocking' b n 0 [] last_set

end M27Q

namespace Finder

/-- Discovery source of a monitor entry. -/
inductive MonKind where
  | usb
  | ddcci
  | internal
deriving DecidableEq

/-- A discovered monitor as the deduplication step sees it: its resolved
name and its source. -/
structure MonEntry where
  name : String
  kind : MonKind
deriving DecidableEq

/-- `get_supported_monitors`, from the point where the three source lists
have been enumerated: every DDC/CI monitor whose name matches some
USB-claimed monitor's name is removed, and the result is the USB
monitors, the surviving DDC/CI monitors, then the internal monitors. -/
def get_supported_monitors (usb_monitors all_ddcci internal : List MonEntry) :
    List MonEntry :=
  usb_monitors
    ++ all_ddcci.filter (fun m => !(usb_monitors.any (fun u => m.name == u.name)))
    ++ internal

end Finder

/-!  Theorems settling the claims, with their helper lemmas.  -/

/-- C1. A channel-acquisition failure (`LinuxVCP.__enter__` raising a
`VCPError` subclass inside `with self.vcp:`) is caught nowhere in
`MonitorDDCCI.get_brightness` or `set_brightness`, so — contrary to the
claim and to the `MonitorBase` docstrings, which demand that these calls
never raise — the exception escapes to the caller instead of the call
resolving to `None` or a silent no-op. -/
theorem ddcci_channel_errors_escape :
    MonitorDDCCI.get_brightness 3 false false (fun _ => .error .io) none
      = .error .io ∧
    MonitorDDCCI.get_brightness 3 true true (fun _ => .error .permission) none
      = .error .permission ∧
    MonitorDDCCI.set_brightness 3 false true (.error .io) (fun _ => true) none 50
      = .error .io :=
  ⟨rfl, rfl, rfl⟩

/-- C5. Parsing the scenario capability string yields model `"ABC123"`, a
VCP entry for code 0x10 with no sub-values, and a VCP entry for code 0x14
with exactly the sub-values 0x01, 0x02, 0x05. -/
theorem parse_capabilities_scenario :
    (Vpc.parse_capabilities
        "(prot(monitor)type(lcd)model(ABC123)vcp(02 04 10 12 14(01 02 05)))").map
      (fun c => (c.model, (Vpc.pyLookup c.vcp 0x10).map Vpc.pyKeys,
                 (Vpc.pyLookup c.vcp 0x14).map Vpc.pyKeys))
      = .ok ("ABC123", some [], some [1, 2, 5]) := rfl

/-- C6, counterexample. `parse_capabilities` is not total: a token inside
the extracted `vcp` group that is not a hexadecimal numeral makes
`int(chunk, 16)` raise `ValueError`, which nothing catches. -/
theorem parse_capabilities_raises_cex :
    Vpc.parse_capabilities "(prot(monitor)vcp(zz))" = .error .valueError := rfl

/-- C6, amended. `parse_capabilities` tolerates missing keys, truncated
groups and unmatched parentheses — `_extract_cap` is total (it yields
`""` when the regex does not match) and every field except the two dict
groups is processed without any possible exception — but it is not total:
it raises precisely when `_cap_to_dict` fails on the extracted `cmds` or
`vcp` capture (a non-hexadecimal token raises `ValueError`, an orphan
`(` raises `KeyError`). -/
theorem parse_capabilities_ok_iff (s : String) :
    exceptOk (Vpc.parse_capabilities s)
      = (exceptOk (Vpc._cap_to_dict (Vpc._extract_cap s "cmds"))
        && exceptOk (Vpc._cap_to_dict (Vpc._extract_cap s "vcp"))) := by
  rw [Vpc.parse_capabilities]
  cases h1 : Vpc._cap_to_dict (Vpc._extract_cap s "cmds") with
  | error e => simp [h1, exceptOk, Bind.bind, Except.bind]
  | ok cmds =>
    cases h2 : Vpc._cap_to_dict (Vpc._extract_cap s "vcp") with
    | error e => simp [h1, h2, exceptOk, Bind.bind, Except.bind]
    | ok vcp => simp [h1, h2, exceptOk, Bind.bind, Except.bind, Pure.pure, Except.pure]

/-- C9, counterexample. A successful capability fetch whose string has no
`model(...)` group parses to an empty model (never `None`, so the code's
`is not None` guard cannot fail), and `update_cap` still commits it: the
name changes from the default `"Monitor"` to `""` and the monitor no
longer reports `is_unknown()`, contrary to the claim. -/
theorem update_cap_commits_empty_model_cex :
    (MonitorDDCCI.update_cap 3 true (.ok ()) (fun _ => .ok "(prot(monitor))")
        "Monitor" none).map
      (fun st => (st.1, MonitorDDCCI.is_unknown st.1)) = .ok ("", false) ∧
    (Vpc.parse_capabilities "(prot(monitor))").map Vpc.Capabilities.model
      = .ok "" :=
  ⟨rfl, rfl⟩

/-- C8, counterexample. A forced `M27Q.set_brightness` run whose first
write attempt reports success performs exactly one OSD write and no read
whatsoever: there is no read-back of the brightness and no write-verify
loop, contrary to the claim. -/
theorem m27q_set_force_no_readback_cex :
    M27Q.set_brightness 9 false true (fun _ => true) (fun _ => true) none 50
      = ([M27Q.UsbOp.write [0x6E, 0x51, 0x84, 0x03, 0x10, 0x00, 50]], some 50) ∧
    M27Q.UsbOp.read ∉ [M27Q.UsbOp.write [0x6E, 0x51, 0x84, 0x03, 0x10, 0x00, 50]] :=
  ⟨rfl, by decide⟩

/-- Casting a list sum of integers to the rationals. -/
theorem listCastSum (l : List ℤ) :
    (l.map (Int.cast : ℤ → ℚ)).sum = ((l.sum : ℤ) : ℚ) := by
  induction l with
  | nil => simp
  | cons x t ih =>
    rw [List.map_cons, List.sum_cons, List.sum_cons, ih]
    push_cast
    ring

/-- `pyIntMean` computes exactly the truncation toward zero of the exact
rational mean: the `Int.tdiv` implementation agrees with Python's
`int(sum(data) / len(data))` read over exact arithmetic. -/
theorem pyIntMean_eq_trunc_meanQ (l : List ℤ) (hne : l ≠ []) :
    MonitorBase.pyIntMean l = MonitorBase.pyTruncQ (MonitorBase.meanQ l) := by
  have hn : 0 < l.length := List.length_pos.mpr hne
  have hnQ : (0 : ℚ) < (l.length : ℚ) := by exact_mod_cast hn
  have hmean : MonitorBase.meanQ l = ((l.sum : ℚ)) / ((l.length : ℕ) : ℚ) := by
    rw [MonitorBase.meanQ, listCastSum]
  have hsign : (0 ≤ MonitorBase.meanQ l) ↔ (0 ≤ l.sum) := by
    rw [hmean, le_div_iff₀ hnQ, zero_mul]
    exact Int.cast_nonneg
  rcases le_or_lt 0 l.sum with hs | hs
  · have h0 : 0 ≤ MonitorBase.meanQ l := hsign.mpr hs
    rw [MonitorBase.pyTruncQ, if_pos h0, hmean,
      Rat.floor_intCast_div_natCast]
    rw [MonitorBase.pyIntMean, Int.tdiv_eq_ediv hs (by positivity)]
  · have h0 : ¬ (0 ≤ MonitorBase.meanQ l) := by
      rw [hsign]; omega
    rw [MonitorBase.pyTruncQ, if_neg h0]
    have hceil : ⌈MonitorBase.meanQ l⌉ = -⌊-MonitorBase.meanQ l⌋ := by
      rw [Int.floor_neg]; ring
    have hneg : -MonitorBase.meanQ l = (((-l.sum : ℤ)) : ℚ) / ((l.length : ℕ) : ℚ) := by
      rw [hmean]; push_cast; ring
    rw [hceil, hneg, Rat.floor_intCast_div_natCast]
    have hflip : l.sum.tdiv (l.length : ℤ) = -((-l.sum).tdiv (l.length : ℤ)) := by
      rw [Int.neg_tdiv]; ring
    rw [MonitorBase.pyIntMean, hflip, Int.tdiv_eq_ediv (by omega) (by positivity)]

/-- Elementwise bounds give bounds on a list sum. -/
theorem sum_bounds_of_forall (l : List ℤ) (a b : ℤ)
    (h : ∀ x ∈ l, a ≤ x ∧ x ≤ b) :
    (l.length : ℤ) * a ≤ l.sum ∧ l.sum ≤ (l.length : ℤ) * b := by
  induction l with
  | nil => simp
  | cons x t ih =>
    obtain ⟨hx1, hx2⟩ := h x (by simp)
    obtain ⟨ih1, ih2⟩ := ih (fun y hy => h y (by simp [hy]))
    constructor
    · have : ((t.length : ℤ) + 1) * a = (t.length : ℤ) * a + a := by ring
      simp only [List.length_cons, List.sum_cons]
      push_cast
      omega
    · have : ((t.length : ℤ) + 1) * b = (t.length : ℤ) * b + b := by ring
      simp only [List.length_cons, List.sum_cons]
      push_cast
      omega

/-- Elementwise bounds give bounds on the exact rational mean. -/
theorem meanQ_bounds (l : List ℤ) (a b : ℤ) (hne : l ≠ [])
    (h : ∀ x ∈ l, a ≤ x ∧ x ≤ b) :
    (a : ℚ) ≤ MonitorBase.meanQ l ∧ MonitorBase.meanQ l ≤ (b : ℚ) := by
  have hn : 0 < l.length := List.length_pos.mpr hne
  have hnQ : (0 : ℚ) < (l.length : ℚ) := by exact_mod_cast hn
  obtain ⟨h1, h2⟩ := sum_bounds_of_forall l a b h
  have hmean : MonitorBase.meanQ l = ((l.sum : ℚ)) / ((l.length : ℚ)) := by
    rw [MonitorBase.meanQ, listCastSum]
  constructor
  · rw [hmean, le_div_iff₀ hnQ]
    calc (a : ℚ) * (l.length : ℚ) = (((l.length : ℤ) * a : ℤ) : ℚ) := by push_cast; ring
    _ ≤ ((l.sum : ℤ) : ℚ) := by exact_mod_cast h1
  · rw [hmean, div_le_iff₀ hnQ]
    calc ((l.sum : ℤ) : ℚ) ≤ (((l.length : ℤ) * b : ℤ) : ℚ) := by exact_mod_cast h2
    _ = (b : ℚ) * (l.length : ℚ) := by push_cast; ring

/-- C3, counterexample. With integer samples `[40, 41, 41]`, scale 2 and
cached brightness 86, the converted candidates are `[80, 82, 82]` with
exact mean 244/3; the claim's formula (`|mean − last| = 14/3 < 5`)
demands `None`, but the code truncates the mean to 81 first and
`|86 − 81| = 5 ≥ 5`, so it proposes 81. -/
theorem convert_sensor_readings_trunc_cex :
    MonitorBase.convert_sensor_readings 0 100 (some 86) [40, 41, 41] = some 81 ∧
    MonitorBase.specPropose 2 5 0 100 86 [40, 41, 41] = none := by
  constructor
  · decide
  · show MonitorBase.specPropose 2 5 0 100 86 [40, 41, 41] = none
    rw [MonitorBase.specPropose]
    norm_num [MonitorBase.meanQ, MonitorBase.clampI, round_eq]
    intro hcontra
    rw [abs_of_nonneg (by norm_num : (0 : ℚ) ≤ 14 / 3)] at hcontra
    norm_num at hcontra

/-- C3, amended. For nonempty integer readings and a cached brightness,
the code converts each reading with `clamp(m * 2)` (scale hard-coded to
2), truncates the exact candidate mean toward zero to an integer, returns
that integer when it differs from the cached brightness by at least the
threshold 5 and `None` otherwise; a returned proposal lies within the
brightness bounds whenever `0 ≤ min ≤ max`. -/
theorem convert_sensor_readings_amended (minB maxB last : ℤ)
    (readings : List ℤ) (hne : readings ≠ []) :
    (MonitorBase.convert_sensor_readings minB maxB (some last) readings
       = if 5 ≤ |last - MonitorBase.pyIntMean
             (readings.map (fun m => MonitorBase.clampI minB maxB (m * 2)))|
         then some (MonitorBase.pyIntMean
             (readings.map (fun m => MonitorBase.clampI minB maxB (m * 2))))
         else none)
    ∧ MonitorBase.pyIntMean
        (readings.map (fun m => MonitorBase.clampI minB maxB (m * 2)))
      = MonitorBase.pyTruncQ (MonitorBase.meanQ
          (readings.map (fun m => MonitorBase.clampI minB maxB (m * 2))))
    ∧ (0 ≤ minB → minB ≤ maxB →
        ∀ v, MonitorBase.convert_sensor_readings minB maxB (some last) readings
          = some v → minB ≤ v ∧ v ≤ maxB) := by
  have hmapne : readings.map (fun m => MonitorBase.clampI minB maxB (m * 2)) ≠ [] := by
    simp [hne]
  have heq : MonitorBase.convert_sensor_readings minB maxB (some last) readings
       = if 5 ≤ |last - MonitorBase.pyIntMean
             (readings.map (fun m => MonitorBase.clampI minB maxB (m * 2)))|
         then some (MonitorBase.pyIntMean
             (readings.map (fun m => MonitorBase.clampI minB maxB (m * 2))))
         else none := by
    cases readings with
    | nil => exact absurd rfl hne
    | cons x t => simp [MonitorBase.convert_sensor_readings]
  refine ⟨heq, pyIntMean_eq_trunc_meanQ _ hmapne, ?_⟩
  intro h0 h1 v hv
  rw [heq] at hv
  by_cases hc : 5 ≤ |last - MonitorBase.pyIntMean
      (readings.map (fun m => MonitorBase.clampI minB maxB (m * 2)))|
  · rw [if_pos hc] at hv
    have hv' : v = MonitorBase.pyIntMean
        (readings.map (fun m => MonitorBase.clampI minB maxB (m * 2))) :=
      (Option.some_inj.mp hv).symm
    have hbounds : ∀ x ∈ readings.map (fun m => MonitorBase.clampI minB maxB (m * 2)),
        minB ≤ x ∧ x ≤ maxB := by
      intro x hx
      obtain ⟨m, _, hm⟩ := List.mem_map.mp hx
      subst hm
      exact ⟨le_max_right _ _, max_le ((min_le_right _ _)) h1⟩
    obtain ⟨hlb, hub⟩ := meanQ_bounds _ minB maxB hmapne hbounds
    have hmean0 : (0 : ℚ) ≤ MonitorBase.meanQ
        (readings.map (fun m => MonitorBase.clampI minB maxB (m * 2))) := by
      calc (0 : ℚ) ≤ (minB : ℚ) := by exact_mod_cast h0
      _ ≤ _ := hlb
    have htr := pyIntMean_eq_trunc_meanQ _ hmapne
    rw [MonitorBase.pyTruncQ, if_pos hmean0] at htr
    subst hv'
    rw [htr]
    constructor
    · exact Int.le_floor.mpr hlb
    · have hfl : ((⌊MonitorBase.meanQ
          (readings.map (fun m => MonitorBase.clampI minB maxB (m * 2)))⌋ : ℤ) : ℚ)
          ≤ (maxB : ℚ) := le_trans (Int.floor_le _) hub
      exact_mod_cast hfl
  · rw [if_neg hc] at hv
    exact absurd hv (by simp)

/-- C3, witness for the amended theorem: the claim's own scenario — with
readings `[40, 42, 41]` and cached brightness 60 the candidates are
`[80, 84, 82]`, the mean 82 differs from 60 by 22 ≥ 5, and 82 is
proposed. -/
theorem convert_sensor_readings_amended_witness :
    MonitorBase.convert_sensor_readings 0 100 (some 60) [40, 42, 41] = some 82 :=
  ((convert_sensor_readings_amended 0 100 60 [40, 42, 41] (by decide)).1).trans
    (by decide)

/-- Two distinct values cannot together outnumber a list. -/
theorem count_add_count_le_length (l : List ℤ) (a b : ℤ) (hab : a ≠ b) :
    l.count a + l.count b ≤ l.length := by
  induction l with
  | nil => simp
  | cons x t ih =>
    simp only [List.count_cons, List.length_cons, beq_iff_eq]
    by_cases h1 : x = a <;> by_cases h2 : x = b
    · exact absurd (h1.symm.trans h2) hab
    · rw [if_pos h1, if_neg h2]
      omega
    · rw [if_neg h1, if_pos h2]
      omega
    · rw [if_neg h1, if_neg h2]
      omega

/-- Strict majority determines `majority`: whatever first-seen tie-break
the Python set iteration order induces, a value occurring in more than
half of the reads is the unique count maximiser, so it is returned. -/
theorem majority_of_strict_majority (l : List ℤ) (v : ℤ)
    (h : l.length < 2 * l.count v) :
    MonitorDDCCI.majority l = some v := by
  have hcle : l.count v ≤ l.length := List.count_le_length v l
  have hvpos : 0 < l.count v := by omega
  have hvmem : v ∈ l := List.count_pos_iff.mp hvpos
  have hvdedup : v ∈ l.dedup := List.mem_dedup.mpr hvmem
  have hne : l.dedup ≠ [] := by
    intro hnil
    rw [hnil] at hvdedup
    exact absurd hvdedup (List.not_mem_nil v)
  obtain ⟨m, hm⟩ : ∃ m, l.dedup.argmax (fun x => l.count x) = some m := by
    cases hq : l.dedup.argmax (fun x => l.count x) with
    | some m => exact ⟨m, rfl⟩
    | none => exact absurd (List.argmax_eq_none.mp hq) hne
  have hmm : m ∈ l.dedup.argmax (fun x => l.count x) := by
    rw [hm]; rfl
  have hle : l.count v ≤ l.count m := List.le_of_mem_argmax hvdedup hmm
  by_cases hmv : m = v
  · rw [MonitorDDCCI.majority, hm, hmv]
  · exfalso
    have hsum := count_add_count_le_length l m v hmv
    omega

/-- Under `force` with an error-free channel, the retry loop collects
exactly the successful reads of its attempt window and resolves to their
majority (or to no result and the unchanged cache when every read
failed). -/
theorem getLoop_force_collects (oracle : Nat → Except VCPErr (Option Int))
    (r : Nat → Option Int) (hor : ∀ i, oracle i = .ok (r i)) :
    ∀ (k i : Nat) (vals : List Int) (last : Option Int),
      MonitorDDCCI.getLoop true oracle k i vals last =
        (match MonitorDDCCI.majority (vals ++ (List.range' i k).filterMap r) with
         | some m => .ok (some m, some m)
         | none => .ok (none, last)) := by
  intro k
  induction k with
  | zero =>
    intro i vals last
    simp [MonitorDDCCI.getLoop]
  | succ k ih =>
    intro i vals last
    have hstep : MonitorDDCCI.getLoop true oracle (k + 1) i vals last
        = match r i with
          | none => MonitorDDCCI.getLoop true oracle k (i + 1) vals last
          | some b => MonitorDDCCI.getLoop true oracle k (i + 1) (vals ++ [b]) last := by
      rw [MonitorDDCCI.getLoop, hor i]
      cases r i <;> simp
    rw [hstep, List.range'_succ, List.filterMap_cons]
    cases hri : r i with
    | none => exact ih (i + 1) vals last
    | some b =>
      dsimp only
      rw [ih (i + 1) (vals ++ [b]) last]
      have hlist : (vals ++ [b]) ++ List.filterMap r (List.range' (i + 1) k)
          = vals ++ (b :: List.filterMap r (List.range' (i + 1) k)) := by simp
      rw [hlist]

/-- C2. Majority-vote consensus of `get_brightness` under `force`: for
any attempt window whose reads all complete (no channel error), if some
value occurs in strictly more than half of the successful reads, the call
returns it (and caches it), regardless of the remaining values. -/
theorem get_brightness_majority (max_tries : Nat) (blocking : Bool)
    (last_get : Option Int) (r : Nat → Option Int) (v : Int)
    (hmaj : ((List.range max_tries).filterMap r).length <
            2 * ((List.range max_tries).filterMap r).count v) :
    MonitorDDCCI.get_brightness max_tries blocking true (fun i => .ok (r i)) last_get
      = .ok (some v, some v) := by
  rw [MonitorDDCCI.get_brightness]
  have hcond : (if !blocking && !true then 1 else max_tries) = max_tries := by
    cases blocking <;> rfl
  rw [hcond, getLoop_force_collects (fun i => .ok (r i)) r (fun i => rfl) max_tries 0 [] last_get,
    List.nil_append, ← List.range_eq_range', majority_of_strict_majority _ v hmaj]

/-- C2, witness: the claim's scenario — successful raw reads
`[50, 50, 52, 50]` with `max_tries = 4` under `force` return the majority
value 50. -/
theorem get_brightness_majority_witness :
    MonitorDDCCI.get_brightness 4 false true
      (fun i => .ok (([50, 50, 52, 50] : List Int)[i]?)) none
      = .ok (some 50, some 50) :=
  get_brightness_majority 4 false none
    (fun i => ([50, 50, 52, 50] : List Int)[i]?) 50 (by decide)

/-- An XOR fold of bytes stays a byte. -/
theorem foldl_xor_lt (l : List Nat) (acc : Nat) (hacc : acc < 256)
    (h : ∀ b ∈ l, b < 256) :
    l.foldl (fun a b => a ^^^ b) acc < 256 := by
  induction l generalizing acc with
  | nil => simpa using hacc
  | cons x t ih =>
    have hx : x < 256 := h x (by simp)
    have hxor : acc ^^^ x < 256 := by
      have h256 : (256 : Nat) = 2 ^ 8 := by norm_num
      rw [h256] at hacc hx ⊢
      exact Nat.xor_lt_two_pow hacc hx
    exact ih (acc ^^^ x) hxor (fun b hb => h b (List.mem_cons.mpr (Or.inr hb)))

/-- The argument bytes of a frame are bytes. -/
theorem packHbe_bytes (args : List Nat) (ha : ∀ a ∈ args, a < 65536) :
    ∀ b ∈ args.flatMap LinuxVCP.packHbe, b < 256 := by
  intro b hb
  obtain ⟨a, hamem, hbmem⟩ := List.mem_flatMap.mp hb
  have ha' : a < 65536 := ha a hamem
  rw [LinuxVCP.packHbe] at hbmem
  rcases List.mem_cons.mp hbmem with h | h
  · subst h
    omega
  · rcases List.mem_cons.mp h with h2 | h2
    · subst h2
      omega
    · exact absurd h2 (List.not_mem_nil b)

/-- The payload of a frame holds one command byte plus two bytes per
argument. -/
theorem flatMap_packHbe_length (l : List Nat) :
    (l.flatMap LinuxVCP.packHbe).length = 2 * l.length := by
  induction l with
  | nil => rfl
  | cons a t ih =>
    rw [List.flatMap_cons, List.length_append, ih]
    have h2 : (LinuxVCP.packHbe a).length = 2 := rfl
    rw [h2, List.length_cons]
    omega

/-- The payload of a frame holds one command byte plus two bytes per
argument. -/
theorem payload_length (cmd : Nat) (args : List Nat) :
    (cmd :: args.flatMap LinuxVCP.packHbe).length = 1 + 2 * args.length := by
  rw [List.length_cons, flatMap_packHbe_length]
  omega

/-- C4. Every frame `_prepare_data` builds has the documented shape
`[hostAddress 0x51, payloadLength | 0x80, payload bytes, checksum]`,
where the checksum is the XOR of the shifted destination address
`0x37 <<< 1 = 0x6E` with the host-address byte, the length byte and all
payload bytes; all frame bytes fit in one byte for the argument sizes
the backend can actually transmit. -/
theorem prepare_data_frame (cmd : Nat) (args : List Nat)
    (hc : cmd < 256) (ha : ∀ a ∈ args, a < 65536) (hl : args.length ≤ 63) :
    (LinuxVCP._prepare_data cmd args
      = [LinuxVCP.HOST_ADDRESS,
         (cmd :: args.flatMap LinuxVCP.packHbe).length ||| LinuxVCP.PROTOCOL_FLAG]
        ++ (cmd :: args.flatMap LinuxVCP.packHbe)
        ++ [LinuxVCP.get_checksum
             ([LinuxVCP.DDCCI_ADDR <<< 1, LinuxVCP.HOST_ADDRESS,
               (cmd :: args.flatMap LinuxVCP.packHbe).length ||| LinuxVCP.PROTOCOL_FLAG]
              ++ (cmd :: args.flatMap LinuxVCP.packHbe))])
    ∧ (∀ b ∈ LinuxVCP._prepare_data cmd args, b < 256)
    ∧ (cmd :: args.flatMap LinuxVCP.packHbe).length = 1 + 2 * args.length := by
  have hplen := payload_length cmd args
  have hlenbyte : (cmd :: args.flatMap LinuxVCP.packHbe).length
      ||| LinuxVCP.PROTOCOL_FLAG < 256 := by
    have h1 : (cmd :: args.flatMap LinuxVCP.packHbe).length < 2 ^ 8 := by omega
    have h2 : LinuxVCP.PROTOCOL_FLAG < 2 ^ 8 := by norm_num [LinuxVCP.PROTOCOL_FLAG]
    have := Nat.or_lt_two_pow h1 h2
    omega
  have hpayload : ∀ b ∈ cmd :: args.flatMap LinuxVCP.packHbe, b < 256 := by
    intro b hb
    rcases List.mem_cons.mp hb with h | h
    · omega
    · exact packHbe_bytes args ha b h
  have heq : LinuxVCP._prepare_data cmd args
      = [LinuxVCP.HOST_ADDRESS,
         (cmd :: args.flatMap LinuxVCP.packHbe).length ||| LinuxVCP.PROTOCOL_FLAG]
        ++ (cmd :: args.flatMap LinuxVCP.packHbe)
        ++ [LinuxVCP.get_checksum
             ([LinuxVCP.DDCCI_ADDR <<< 1, LinuxVCP.HOST_ADDRESS,
               (cmd :: args.flatMap LinuxVCP.packHbe).length ||| LinuxVCP.PROTOCOL_FLAG]
              ++ (cmd :: args.flatMap LinuxVCP.packHbe))] := rfl
  refine ⟨heq, ?_, hplen⟩
  intro b hb
  rw [heq] at hb
  rcases List.mem_append.mp hb with h | h
  · rcases List.mem_append.mp h with h1 | h1
    · rcases List.mem_cons.mp h1 with h2 | h2
      · rw [h2]
        decide
      · rcases List.mem_cons.mp h2 with h3 | h3
        · rw [h3]
          exact hlenbyte
        · exact absurd h3 (List.not_mem_nil b)
    · exact hpayload b h1
  · have hbchk := List.mem_singleton.mp h
    rw [hbchk, LinuxVCP.get_checksum]
    apply foldl_xor_lt _ 0 (by decide)
    intro x hx
    rcases List.mem_append.mp hx with h2 | h2
    · rcases List.mem_cons.mp h2 with h3 | h3
      · rw [h3]
        decide
      · rcases List.mem_cons.mp h3 with h4 | h4
        · rw [h4]
          decide
        · rcases List.mem_cons.mp h4 with h5 | h5
          · rw [h5]
            exact hlenbyte
          · exact absurd h5 (List.not_mem_nil x)
    · exact hpayload x h2

/-- C4, witness: the frame of `get_vcp_feature(0x10)` — command byte
0x01, argument 0x10 — is `[0x51, 0x83, 0x01, 0x00, 0x10, 0xAD]` with
`0xAD = 0x6E ^ 0x51 ^ 0x83 ^ 0x01 ^ 0x00 ^ 0x10`, all bytes. -/
theorem prepare_data_frame_witness :
    LinuxVCP._prepare_data 1 [16] = [0x51, 0x83, 0x01, 0x00, 0x10, 0xAD]
    ∧ ∀ b ∈ LinuxVCP._prepare_data 1 [16], b < 256 := by
  obtain ⟨h1, h2, _⟩ := prepare_data_frame 1 [16] (by decide) (by decide) (by decide)
  exact ⟨h1.trans (by decide), h2⟩

/-- C7. When exactly one USB-discovered monitor resolves to a name and no
internal monitor shares it, the discovery result contains exactly one
entry with that name, and it is the USB one: every same-named DDC/CI
monitor is removed. -/
theorem get_supported_monitors_dedup (usb ddcci internal : List Finder.MonEntry)
    (n : String)
    (hu : usb.countP (fun m => m.name == n) = 1)
    (hi : internal.countP (fun m => m.name == n) = 0) :
    ((Finder.get_supported_monitors usb ddcci internal).countP
        (fun m => m.name == n) = 1)
    ∧ ∀ m ∈ Finder.get_supported_monitors usb ddcci internal,
        m.name = n → m ∈ usb := by
  have hex : ∃ u ∈ usb, u.name = n := by
    have hpos : 0 < usb.countP (fun m => m.name == n) := by omega
    obtain ⟨u, hu1, hu2⟩ := List.countP_pos_iff.mp hpos
    exact ⟨u, hu1, eq_of_beq hu2⟩
  obtain ⟨u, humem, huname⟩ := hex
  have hany : ∀ m : Finder.MonEntry, m.name = n →
      usb.any (fun u2 => m.name == u2.name) = true := by
    intro m hmn
    refine List.any_eq_true.mpr ⟨u, humem, ?_⟩
    rw [hmn, huname]
    exact beq_self_eq_true n
  have hd0 : (ddcci.filter fun m =>
      !(usb.any fun u2 => m.name == u2.name)).countP (fun m => m.name == n) = 0 := by
    rw [List.countP_eq_zero]
    intro m hm hpn
    obtain ⟨hmem, hfilt⟩ := List.mem_filter.mp hm
    rw [hany m (eq_of_beq hpn)] at hfilt
    exact absurd hfilt (by decide)
  constructor
  · rw [Finder.get_supported_monitors, List.countP_append, List.countP_append]
    omega
  · intro m hm hmn
    rw [Finder.get_supported_monitors] at hm
    rcases List.mem_append.mp hm with hm1 | hm2
    · rcases List.mem_append.mp hm1 with hmu | hmf
      · exact hmu
      · exfalso
        obtain ⟨_, hfilt⟩ := List.mem_filter.mp hmf
        rw [hany m hmn] at hfilt
        exact absurd hfilt (by decide)
    · exfalso
      have := List.countP_eq_zero.mp hi m hm2
      exact this (beq_iff_eq.mpr hmn)

/-- C7, witness: one USB monitor and one DDC/CI monitor both named
"M27Q", plus an unrelated DDC/CI monitor — the result keeps exactly one
"M27Q" entry. -/
theorem get_supported_monitors_dedup_witness :
    (Finder.get_supported_monitors
        ([⟨"M27Q", .usb⟩] : List Finder.MonEntry)
        ([⟨"M27Q", .ddcci⟩, ⟨"DellU27", .ddcci⟩] : List Finder.MonEntry)
        ([] : List Finder.MonEntry)).countP
      (fun m => m.name == "M27Q") = 1 :=
  (get_supported_monitors_dedup _ _ _ "M27Q" (by decide) (by decide)).1

/-- The trace invariant of the `set_brightness` retry loop: every
operation it can ever emit is the one OSD set-command write. -/
theorem m27q_setLoop_writes_only (ready attempt : Nat → Bool) (blocking' : Bool)
    (b : Int) :
    ∀ (k i : Nat) (tr : List M27Q.UsbOp) (last : Option Int),
      (∀ op ∈ tr, op = M27Q.UsbOp.write (M27Q.set_osd_msg [0x10, 0x00, b.toNat])) →
      ∀ op ∈ (M27Q.setLoop ready attempt blocking' b k i tr last).1,
        op = M27Q.UsbOp.write (M27Q.set_osd_msg [0x10, 0x00, b.toNat]) := by
  intro k
  induction k with
  | zero =>
    intro i tr last htr op hop
    exact htr op hop
  | succ k ih =>
    intro i tr last htr op hop
    have htr' : ∀ op ∈ tr ++ [M27Q.UsbOp.write (M27Q.set_osd_msg [0x10, 0x00, b.toNat])],
        op = M27Q.UsbOp.write (M27Q.set_osd_msg [0x10, 0x00, b.toNat]) := by
      intro op2 hop2
      rcases List.mem_append.mp hop2 with h | h
      · exact htr op2 h
      · exact List.mem_singleton.mp h
    rw [M27Q.setLoop] at hop
    by_cases hbl : blocking' = true
    · rw [if_pos hbl] at hop
      by_cases hat : attempt i = true
      · rw [if_pos hat] at hop
        exact htr' op hop
      · rw [if_neg hat] at hop
        exact ih (i + 1) _ last htr' op hop
    · rw [if_neg hbl] at hop
      by_cases hrd : ready i = true
      · rw [if_pos hrd] at hop
        by_cases hat : attempt i = true
        · rw [if_pos hat] at hop
          exact htr' op hop
        · rw [if_neg hat] at hop
          exact ih (i + 1) _ last htr' op hop
      · rw [if_neg hrd] at hop
        exact ih (i + 1) tr last htr op hop

/-- C8, amended. `M27Q.set_brightness` never reads: for every flag
combination, readiness pattern and attempt outcome, every USB operation
in its trace is the OSD set-command write of the clamped brightness —
there is no read-back and hence no write-verify loop; a failing write
attempt is simply retried (up to the budget) and the first success
returns. -/
theorem m27q_set_brightness_writes_only (max_tries : Nat) (blocking force : Bool)
    (ready attempt : Nat → Bool) (last_set : Option Int) (brightness : Int) :
    ∀ op ∈ (M27Q.set_brightness max_tries blocking force ready attempt
        last_set brightness).1,
      op = M27Q.UsbOp.write
        (M27Q.set_osd_msg [0x10, 0x00, (M27Q.clamp brightness).toNat]) := by
  intro op hop
  rw [M27Q.set_brightness] at hop
  exact m27q_setLoop_writes_only ready attempt (blocking || force)
    (M27Q.clamp brightness) _ 0 [] last_set (by intro op2 h; cases h) op hop

/-- C8, witness for the amended theorem. -/
theorem m27q_set_brightness_writes_only_witness :
    M27Q.UsbOp.write [0x6E, 0x51, 0x84, 0x03, 0x10, 0x00, 50]
      = M27Q.UsbOp.write (M27Q.set_osd_msg [0x10, 0x00, (M27Q.clamp 50).toNat]) :=
  m27q_set_brightness_writes_only 9 false true (fun _ => true) (fun _ => true)
    none 50 (M27Q.UsbOp.write [0x6E, 0x51, 0x84, 0x03, 0x10, 0x00, 50]) (by decide)

/-- When every fetch raises `VCPError`, the update loop swallows them all
and leaves the state untouched. -/
theorem updateCapLoop_all_vcp_errors (fetches : Nat → Except PyErr String)
    (h : ∀ i, ∃ e, fetches i = .error (.vcp e)) :
    ∀ (k i : Nat) (st : String × Option Vpc.Capabilities),
      MonitorDDCCI.updateCapLoop fetches k i st = .ok st := by
  intro k
  induction k with
  | zero => intro i st; rfl
  | succ k ih =>
    intro i st
    obtain ⟨e, he⟩ := h i
    obtain ⟨nm, caps⟩ := st
    rw [MonitorDDCCI.updateCapLoop, he]
    exact ih (i + 1) (nm, caps)

/-- When every fetch returns the same parsable string, the loop commits
its model as the name and caches the first parsed capabilities. -/
theorem updateCapLoop_const_ok (s : String) (c : Vpc.Capabilities)
    (fetches : Nat → Except PyErr String)
    (hf : ∀ i, fetches i = .ok s) (hp : Vpc.parse_capabilities s = .ok c) :
    ∀ (k i : Nat) (nm : String) (caps : Option Vpc.Capabilities), 0 < k →
      MonitorDDCCI.updateCapLoop fetches k i (nm, caps)
        = .ok (c.model, some (caps.getD c)) := by
  intro k
  induction k with
  | zero =>
    intro i nm caps h0
    omega
  | succ k ih =>
    intro i nm caps h0
    have hstep : MonitorDDCCI.updateCapLoop fetches (k + 1) i (nm, caps)
        = MonitorDDCCI.updateCapLoop fetches k (i + 1) (c.model, some (caps.getD c)) := by
      rw [MonitorDDCCI.updateCapLoop, hf i]
      cases caps <;> simp [hp]
    rw [hstep]
    cases k with
    | zero => rfl
    | succ k2 =>
      rw [ih (i + 1) c.model (some (caps.getD c)) (by omega)]
      simp

/-- C9, amended. After `update_cap` (with a successfully opened channel):
when every fetch attempt fails with a `VCPError`, the name and cached
capabilities are unchanged — in particular a monitor that was unknown
still reports `is_unknown()`; when a fetch succeeds and parses, the
parsed model string — even an empty one — is committed as the name, and
the capabilities cache is set only if it was empty. -/
theorem update_cap_amended (mt : Nat) (force : Bool)
    (fetches : Nat → Except PyErr String)
    (nm : String) (caps : Option Vpc.Capabilities) :
    ((∀ i, ∃ e, fetches i = .error (.vcp e)) →
       MonitorDDCCI.update_cap mt force (.ok ()) fetches nm caps = .ok (nm, caps))
    ∧ (∀ s c, (∀ i, fetches i = .ok s) → Vpc.parse_capabilities s = .ok c →
       0 < mt → force = true →
       MonitorDDCCI.update_cap mt force (.ok ()) fetches nm caps
         = .ok (c.model, some (caps.getD c))) := by
  constructor
  · intro h
    rw [MonitorDDCCI.update_cap]
    exact updateCapLoop_all_vcp_errors fetches h _ 0 (nm, caps)
  · intro s c hf hp hmt hforce
    subst hforce
    rw [MonitorDDCCI.update_cap]
    exact updateCapLoop_const_ok s c fetches hf hp mt 0 nm caps hmt

/-- C9, witness for the amended theorem: three failing forced fetches
leave the default name "Monitor" and the empty capability cache
untouched. -/
theorem update_cap_amended_witness :
    MonitorDDCCI.update_cap 3 true (.ok ()) (fun _ => .error (.vcp .io))
      "Monitor" none = .ok ("Monitor", none) :=
  (update_cap_amended 3 true (fun _ => .error (.vcp .io)) "Monitor" none).1
    (fun _ => ⟨.io, rfl⟩)

/-- C10. The estimator proposes nothing without data: with an empty
reading list or no cached last-known brightness,
`convert_sensor_readings` returns `None`. -/
theorem convert_sensor_readings_requires_data (minB maxB : Int)
    (last : Option Int) (readings : List ℤ)
    (h : readings = [] ∨ last = none) :
    MonitorBase.convert_sensor_readings minB maxB last readings = none := by
  rcases h with h | h
  · subst h; rfl
  · subst h; cases readings <;> simp [MonitorBase.convert_sensor_readings]

/-- C10, witness. -/
theorem convert_sensor_readings_requires_data_witness :
    MonitorBase.convert_sensor_readings 0 100 none [40] = none :=
  convert_sensor_readings_requires_data 0 100 none [40] (Or.inr rfl)

end Brightify
